import Mathlib

/-!
Verification of the `reizentraj` trajectory-reconstruction pipeline.

We shallowly embed the core pipeline (`trajectory/preprocess.py`,
`trajectory/coarsen.py`, `trajectory/stats.py`, `trajectory/time_utils.py`,
`trajectory/models.py`, `trajectory/constants.py`) in Lean:

* Python floats for latitudes, longitudes, distances and thresholds are
  modelled as rationals `ℚ` (every float is a rational; the pipeline only
  compares, adds, multiplies and divides these values).
* Timezone-aware datetimes are modelled as integer instants `ℤ`
  (seconds on a linear time axis); the process-wide fixed-offset local
  timezone `LOCAL_TZ` is modelled by taking the axis in local time, so the
  local calendar day of an instant `t` is `t / 86400` (floor division) and
  local midday of day `d` is `86400 * d + 43200`.
* The haversine formula (`haversine_vectorized`, `_haversine_distance_km`)
  is transcendental floating-point arithmetic; the pipeline only ever
  compares its outputs with thresholds and sums them, so we abstract it as
  an arbitrary distance function `dist : Coordinate → Coordinate → ℚ`
  passed as a parameter.  Theorems quantify over `dist`.
-/

namespace Reizentraj

/-- `Coordinate` from `trajectory/models.py`: an immutable
`(latitude, longitude, timestamp)` value. -/
structure Coordinate where
  latitude : ℚ
  longitude : ℚ
  timestamp : ℤ
deriving DecidableEq

/-- The list of consecutive pairs `(coords[i], coords[i+1])`, i.e. the pairs
whose distances `haversine_vectorized` computes in one vectorized call. -/
def consecutivePairs : List Coordinate → List (Coordinate × Coordinate)
  | a :: b :: rest => (a, b) :: consecutivePairs (b :: rest)
  | _ => []

/-- The `distances` array of `build_segments` / `compute_total_distance_km`:
`distances[i] = dist coords[i] coords[i+1]`. -/
def pairDistances (dist : Coordinate → Coordinate → ℚ) (coords : List Coordinate) : List ℚ :=
  (consecutivePairs coords).map fun p => dist p.1 p.2

/-- `in_contiguous_us` from `build_segments` (preprocess.py:140-141):
the contiguous-US bounding box test, inclusive on all four edges. -/
def in_contiguous_us (c : Coordinate) : Bool :=
  decide (24.5 ≤ c.latitude ∧ c.latitude ≤ 49.5 ∧
    -125.0 ≤ c.longitude ∧ c.longitude ≤ -66.0)

/-- The region-sensitive flight threshold of `build_segments`
(preprocess.py:149): 230 km when both endpoints are in the contiguous-US
box, 100 km otherwise. -/
def flightThreshold (o d : Coordinate) : ℚ :=
  if in_contiguous_us o && in_contiguous_us d then 230.0 else 100.0

/-- The flight-detection loop of `build_segments` (preprocess.py:143-151):
`break_indices` are the consecutive pairs at distance strictly above
`threshold_km`; such a break is recorded as a flight when its distance is
`>=` the region-sensitive threshold.  (The source's
`if idx + 1 >= len(coord_list): continue` guard is vacuous —
`distances` has one entry fewer than `coord_list` — and is dropped.) -/
def flightsOf (dist : Coordinate → Coordinate → ℚ) (threshold_km : ℚ)
    (coords : List Coordinate) : List (Coordinate × Coordinate) :=
  (consecutivePairs coords).filter fun p =>
    decide (threshold_km < dist p.1 p.2) && decide (flightThreshold p.1 p.2 ≤ dist p.1 p.2)

/-- The keep-`mask` of `build_segments` (preprocess.py:123): position 0 is
always kept; position `i ≥ 1` is kept iff `distances[i-1] ≤ threshold_km`. -/
def buildMask (dist : Coordinate → Coordinate → ℚ) (threshold_km : ℚ)
    (coords : List Coordinate) : List Bool :=
  true :: (pairDistances dist coords).map fun dval => decide (dval ≤ threshold_km)

/-- The segment-accumulation loop of `build_segments` (preprocess.py:129-138):
walk the `(keep, coord)` pairs; on `keep` append to the current accumulator,
otherwise close the accumulator (kept only if it has more than one point)
and restart from the current coordinate; flush the final accumulator the
same way. -/
def segmentsLoop : List (Bool × Coordinate) → List Coordinate → List (List Coordinate)
  | [], current => if 1 < current.length then [current] else []
  | (keep, c) :: rest, current =>
      if keep then
        segmentsLoop rest (current ++ [c])
      else
        (if 1 < current.length then [current] else []) ++ segmentsLoop rest [c]

/-- `build_segments` from preprocess.py:107-154, returning the pair
`(segments_coords, flights)`.  (The shapely `LineString` conversion of each
segment is presentation and carries no extra information.) -/
def build_segments (dist : Coordinate → Coordinate → ℚ) (threshold_km : ℚ)
    (coords : List Coordinate) :
    List (List Coordinate) × List (Coordinate × Coordinate) :=
  if coords.length < 2 then ([], [])
  else
    (segmentsLoop ((buildMask dist threshold_km coords).zip coords) [],
     flightsOf dist threshold_km coords)

lemma consecutivePairs_mem_length {coords : List Coordinate} {o d : Coordinate}
    (h : (o, d) ∈ consecutivePairs coords) : 2 ≤ coords.length := by
  match coords with
  | [] => simp [consecutivePairs] at h
  | [a] => simp [consecutivePairs] at h
  | a :: b :: rest => simp only [List.length_cons]; omega

/-- A concrete coordinate inside the contiguous-US bounding box. -/
def usA : Coordinate := ⟨40, -100, 0⟩

/-- A second concrete coordinate inside the contiguous-US bounding box. -/
def usB : Coordinate := ⟨41, -100, 1⟩

/-- A distance function that reports exactly 230 km for every pair. -/
def dist230 : Coordinate → Coordinate → ℚ := fun _ _ => 230

/-- C1, counterexample.  The claim says a break is recorded as a flight iff
its distance strictly exceeds the region-sensitive threshold.  At a
chronologically sorted pair inside the US box whose distance is exactly
230 km (a break for `threshold_km = 100`), the code records a flight —
`build_segments` compares with `>=` (preprocess.py:150) — although the
distance does not exceed the 230 km threshold. -/
theorem build_segments_flight_strict_cex :
    List.Chain' (fun a b => a.timestamp ≤ b.timestamp) [usA, usB] ∧
    (usA, usB) ∈ consecutivePairs [usA, usB] ∧
    (100 : ℚ) < dist230 usA usB ∧
    (usA, usB) ∈ (build_segments dist230 100 [usA, usB]).2 ∧
    ¬ flightThreshold usA usB < dist230 usA usB := by
  refine ⟨by norm_num [usA, usB], by simp [consecutivePairs], by norm_num [dist230], ?_,
    by norm_num [flightThreshold, in_contiguous_us, usA, usB, dist230]⟩
  norm_num [build_segments, flightsOf, consecutivePairs, dist230, flightThreshold,
    in_contiguous_us, usA, usB]

/-- C1, amended.  For a chronologically sorted coordinate list, a
consecutive-pair break (distance strictly above `threshold_km`) is recorded
as a flight by `build_segments` iff its distance is at least (`>=`) the
region-sensitive flight threshold: 230 km when both endpoints are inside
the contiguous-US box, 100 km otherwise. -/
theorem build_segments_flight_iff (dist : Coordinate → Coordinate → ℚ)
    (threshold_km : ℚ) (coords : List Coordinate)
    (_hsorted : List.Chain' (fun a b => a.timestamp ≤ b.timestamp) coords)
    (o d : Coordinate) (hmem : (o, d) ∈ consecutivePairs coords)
    (hbreak : threshold_km < dist o d) :
    (o, d) ∈ (build_segments dist threshold_km coords).2 ↔
      flightThreshold o d ≤ dist o d := by
  have hlen := consecutivePairs_mem_length hmem
  unfold build_segments
  rw [if_neg (by omega)]
  simp only [flightsOf, List.mem_filter, Bool.and_eq_true, decide_eq_true_eq]
  constructor
  · rintro ⟨-, -, h⟩
    exact h
  · intro h
    exact ⟨hmem, hbreak, h⟩

/-- C1 amended, witness: with every distance reported as 250 km, the pair
`(usA, usB)` (both in the US box, threshold 230 km) is a recorded flight. -/
theorem build_segments_flight_iff_witness :
    (usA, usB) ∈ (build_segments (fun _ _ => (250 : ℚ)) 100 [usA, usB]).2 := by
  exact (build_segments_flight_iff (fun _ _ => (250 : ℚ)) 100 [usA, usB]
    (by norm_num [usA, usB]) usA usB (by simp [consecutivePairs]) (by norm_num)).mpr
    (by norm_num [flightThreshold, in_contiguous_us, usA, usB])

/-- Helper predicate for the keep-mask: in a `(keep, coord)` stream zipped
by `build_segments`, whenever an entry is marked keep, the relation `R`
(distance within threshold) holds from the previous coordinate to it. -/
def linked (R : Coordinate → Coordinate → Prop) : Coordinate → List (Bool × Coordinate) → Prop
  | _, [] => True
  | p, (b, c) :: rest => (b = true → R p c) ∧ linked R c rest

lemma mask_linked (dist : Coordinate → Coordinate → ℚ) (t : ℚ) (c : Coordinate)
    (cs : List Coordinate) :
    linked (fun a b => dist a b ≤ t) c
      (((pairDistances dist (c :: cs)).map fun dval => decide (dval ≤ t)).zip cs) := by
  induction cs generalizing c with
  | nil => simp [pairDistances, consecutivePairs, linked]
  | cons b rest ih =>
    simp only [pairDistances, consecutivePairs, List.map_cons, List.zip_cons_cons, linked]
    exact ⟨fun h => of_decide_eq_true h, ih b⟩

lemma segmentsLoop_mem (R : Coordinate → Coordinate → Prop) :
    ∀ (l : List (Bool × Coordinate)) (cur : List Coordinate) (p : Coordinate),
      cur.getLast? = some p → List.Chain' R cur → linked R p l →
      ∀ seg ∈ segmentsLoop l cur, 2 ≤ seg.length ∧ List.Chain' R seg := by
  intro l
  induction l with
  | nil =>
    intro cur p _ hchain _ seg hseg
    simp only [segmentsLoop] at hseg
    split at hseg
    · rename_i hlt
      rw [List.mem_singleton] at hseg
      subst hseg
      exact ⟨by omega, hchain⟩
    · simp at hseg
  | cons hd rest ih =>
    obtain ⟨b, c⟩ := hd
    intro cur p hlast hchain hlink seg hseg
    by_cases hb : b = true
    · subst hb
      simp only [segmentsLoop, if_pos] at hseg
      refine ih (cur ++ [c]) c ?_ ?_ hlink.2 seg hseg
      · simp
      · rw [List.chain'_append]
        refine ⟨hchain, List.chain'_singleton c, ?_⟩
        intro x hx y hy
        rw [hlast] at hx
        simp only [List.head?_cons, Option.mem_def, Option.some.injEq] at hx hy
        subst hx; subst hy
        exact hlink.1 rfl
    · rw [Bool.not_eq_true] at hb
      subst hb
      simp only [segmentsLoop, Bool.false_eq_true, if_neg, not_false_eq_true,
        List.mem_append] at hseg
      rcases hseg with hseg | hseg
      · split at hseg
        · rename_i hlt
          rw [List.mem_singleton] at hseg
          subst hseg
          exact ⟨by omega, hchain⟩
        · simp at hseg
      · exact ih [c] c rfl (List.chain'_singleton c) hlink.2 seg hseg

/-- C2: every segment returned by `build_segments` has at least two points,
and no consecutive pair inside a segment is at distance above
`threshold_km` (the accumulator is closed exactly at the break pairs, and
accumulators with fewer than two points are discarded). -/
theorem build_segments_segment_invariant (dist : Coordinate → Coordinate → ℚ)
    (threshold_km : ℚ) (coords : List Coordinate) :
    ∀ seg ∈ (build_segments dist threshold_km coords).1,
      2 ≤ seg.length ∧ List.Chain' (fun a b => dist a b ≤ threshold_km) seg := by
  intro seg hseg
  unfold build_segments at hseg
  by_cases h : coords.length < 2
  · rw [if_pos h] at hseg
    simp at hseg
  · rw [if_neg h] at hseg
    match coords with
    | [] => simp at h
    | c :: cs =>
      simp only [buildMask, List.zip_cons_cons, segmentsLoop, if_pos, List.nil_append] at hseg
      exact segmentsLoop_mem (fun a b => dist a b ≤ threshold_km) _ [c] c rfl
        (List.chain'_singleton c) (mask_linked dist threshold_km c cs) seg hseg

/-- A distance function that reports 0 km for every pair. -/
def dist0 : Coordinate → Coordinate → ℚ := fun _ _ => 0

/-- C2, witness: on `[usA, usB]` with all distances 0 and threshold 1,
the single returned segment `[usA, usB]` satisfies the invariant. -/
theorem build_segments_segment_invariant_witness :
    2 ≤ ([usA, usB] : List Coordinate).length ∧
      List.Chain' (fun a b => dist0 a b ≤ 1) [usA, usB] := by
  refine build_segments_segment_invariant dist0 1 [usA, usB] [usA, usB] ?_
  norm_num [build_segments, buildMask, pairDistances, consecutivePairs, segmentsLoop, dist0]

/-- `compute_total_distance_km` from stats.py:24-35: 0.0 for fewer than two
coordinates; otherwise the sum of the consecutive-pair distances that are
`<= threshold_km` (`distances[valid].sum()`). -/
def compute_total_distance_km (dist : Coordinate → Coordinate → ℚ) (threshold_km : ℚ)
    (coords : List Coordinate) : ℚ :=
  if coords.length < 2 then 0
  else ((pairDistances dist coords).filter fun dval => decide (dval ≤ threshold_km)).sum

lemma sum_filter_le (t : ℚ) (l : List ℚ) :
    (l.filter fun dval => decide (dval ≤ t)).sum
      = (l.map fun dval => if dval ≤ t then dval else 0).sum := by
  induction l with
  | nil => rfl
  | cons x xs ih =>
    by_cases h : x ≤ t
    · simp [List.filter_cons, h, ih]
    · simp [List.filter_cons, h, ih]


/-- C9: the reported total distance is the sum, over all consecutive pairs,
of the pair's distance when it is within `threshold_km` and of nothing
otherwise; lists with fewer than two coordinates total 0. -/
theorem compute_total_distance_km_spec (dist : Coordinate → Coordinate → ℚ)
    (threshold_km : ℚ) (coords : List Coordinate) :
    compute_total_distance_km dist threshold_km coords =
      ((pairDistances dist coords).map fun dval =>
        if dval ≤ threshold_km then dval else 0).sum ∧
    (coords.length < 2 → compute_total_distance_km dist threshold_km coords = 0) := by
  constructor
  · unfold compute_total_distance_km
    by_cases h : coords.length < 2
    · rw [if_pos h]
      match coords with
      | [] => simp [pairDistances, consecutivePairs]
      | [a] => simp [pairDistances, consecutivePairs]
      | a :: b :: rest => simp at h; omega
    · rw [if_neg h]
      exact sum_filter_le threshold_km _
  · intro h
    unfold compute_total_distance_km
    rw [if_pos h]

/-- C9, witness: a single-coordinate list totals 0 km. -/
theorem compute_total_distance_km_spec_witness :
    compute_total_distance_km dist0 1 [usA] = 0 :=
  (compute_total_distance_km_spec dist0 1 [usA]).2 (by norm_num)

/-- `within_range` from time_utils.py:26-31.  Python datetimes are always
truthy, so `if start and ts < start` tests `start is not None`; both bounds
are inclusive. -/
def within_range (ts : ℤ) (start stop : Option ℤ) : Bool :=
  if start.elim false (fun s => decide (ts < s)) then false
  else if stop.elim false (fun e => decide (e < ts)) then false
  else true

/-- `apply_date_filters` from preprocess.py:58-65. -/
def apply_date_filters (coords : List Coordinate) (start stop : Option ℤ) :
    List Coordinate :=
  if start = none ∧ stop = none then coords
  else coords.filter fun c => within_range c.timestamp start stop

lemma within_range_eq (ts : ℤ) (start stop : Option ℤ) :
    within_range ts start stop =
      decide ((∀ s ∈ start, s ≤ ts) ∧ (∀ e ∈ stop, ts ≤ e)) := by
  rcases start with _ | s <;> rcases stop with _ | e <;>
    simp only [within_range, Option.elim_none, Option.elim_some, if_false,
      Bool.false_eq_true, decide_eq_true_eq, Option.mem_def, Option.some.injEq]
  · simp
  · by_cases h : e < ts <;> simp [h] <;> omega
  · by_cases h : ts < s <;> simp [h] <;> omega
  · by_cases h1 : ts < s <;> by_cases h2 : e < ts <;> simp [h1, h2] <;> omega

/-- C5: with both bounds absent `apply_date_filters` returns the input list
itself; in general it keeps, in order, exactly the coordinates whose
timestamp satisfies the present bounds inclusively (`start <= ts` and
`ts <= end`), an absent bound imposing no constraint. -/
theorem apply_date_filters_spec (coords : List Coordinate) (start stop : Option ℤ) :
    (start = none → stop = none → apply_date_filters coords start stop = coords) ∧
    apply_date_filters coords start stop =
      coords.filter fun c =>
        decide ((∀ s ∈ start, s ≤ c.timestamp) ∧ (∀ e ∈ stop, c.timestamp ≤ e)) := by
  constructor
  · intro h1 h2
    subst h1; subst h2
    simp [apply_date_filters]
  · unfold apply_date_filters
    by_cases h : start = none ∧ stop = none
    · rw [if_pos h]
      obtain ⟨h1, h2⟩ := h
      subst h1; subst h2
      simp
    · rw [if_neg h]
      exact List.filter_congr fun c _ => within_range_eq c.timestamp start stop

/-- C5, witness: with both bounds absent the singleton input is returned
unchanged. -/
theorem apply_date_filters_spec_witness :
    apply_date_filters [usA] none none = [usA] :=
  (apply_date_filters_spec [usA] none none).1 rfl rfl

/-- `NoFlyZone` from models.py:44-53; `contains` is the inclusive
axis-aligned bounds test. -/
structure NoFlyZone where
  name : String
  min_lat : ℚ
  min_lon : ℚ
  max_lat : ℚ
  max_lon : ℚ
deriving DecidableEq

def NoFlyZone.contains (z : NoFlyZone) (latitude longitude : ℚ) : Bool :=
  decide (z.min_lat ≤ latitude ∧ latitude ≤ z.max_lat ∧
    z.min_lon ≤ longitude ∧ longitude ≤ z.max_lon)

/-- First configured zone from constants.py:23-29. -/
def chicagoZone : NoFlyZone :=
  { name := "Chicago & Evanston", min_lat := 41.6, min_lon := -87.95,
    max_lat := 42.1, max_lon := -87.5 }

/-- Second configured zone from constants.py:30-36. -/
def beijingZone : NoFlyZone :=
  { name := "Beijing", min_lat := 39.4, min_lon := 115.5,
    max_lat := 40.3, max_lon := 117.5 }

/-- `NO_FLY_ZONES` from constants.py:22-37. -/
def NO_FLY_ZONES : List NoFlyZone := [chicagoZone, beijingZone]

/-- `locate_no_fly_zone` from preprocess.py:68-72: the first configured zone
containing the coordinate, if any. -/
def locate_no_fly_zone (c : Coordinate) : Option NoFlyZone :=
  NO_FLY_ZONES.find? fun z => z.contains c.latitude c.longitude

/-- The accumulation loop of `filter_no_fly_zones` (preprocess.py:79-84):
a located coordinate increments its zone's exclusion counter and is
dropped; the rest are kept in order. -/
def filterZonesLoop : List Coordinate → List Coordinate → (String → ℕ) →
    List Coordinate × (String → ℕ)
  | [], acc, counts => (acc, counts)
  | c :: rest, acc, counts =>
      match locate_no_fly_zone c with
      | some z => filterZonesLoop rest acc
          (fun nm => if nm = z.name then counts nm + 1 else counts nm)
      | none => filterZonesLoop rest (acc ++ [c]) counts

/-- `filter_no_fly_zones` from preprocess.py:75-86.  The Python exclusion
count dict is modelled as a total function `String → ℕ` defaulting to 0
(matching `excluded_counts.get(zone.name, 0)`). -/
def filter_no_fly_zones (coords : List Coordinate) :
    List Coordinate × (String → ℕ) :=
  filterZonesLoop coords [] (fun _ => 0)

lemma filterZonesLoop_spec (l : List Coordinate) :
    ∀ (acc : List Coordinate) (counts : String → ℕ),
    filterZonesLoop l acc counts =
      (acc ++ l.filter (fun c =>
          !(NO_FLY_ZONES.any fun z => z.contains c.latitude c.longitude)),
       fun nm => counts nm + (l.filter fun c =>
          decide (Option.map NoFlyZone.name (locate_no_fly_zone c) = some nm)).length) := by
  induction l with
  | nil => intro acc counts; simp [filterZonesLoop]
  | cons c rest ih =>
    intro acc counts
    rcases hz : locate_no_fly_zone c with _ | z
    · have hz' : NO_FLY_ZONES.find? (fun z => z.contains c.latitude c.longitude) = none := hz
      have hnone : (NO_FLY_ZONES.any fun z => z.contains c.latitude c.longitude) = false := by
        rw [List.any_eq_false]
        intro z hzmem
        simpa using List.find?_eq_none.mp hz' z hzmem
      simp only [filterZonesLoop, hz, ih, List.filter_cons, hnone, Bool.not_false, if_true,
        Option.map_none', Prod.mk.injEq]
      refine ⟨by simp, ?_⟩
      funext nm
      simp
    · have hz' : NO_FLY_ZONES.find? (fun z => z.contains c.latitude c.longitude) = some z := hz
      have hsome : (NO_FLY_ZONES.any fun z => z.contains c.latitude c.longitude) = true := by
        rw [List.any_eq_true]
        exact ⟨z, List.mem_of_find?_eq_some hz', by simpa using List.find?_some hz'⟩
      simp only [filterZonesLoop, hz, ih, List.filter_cons, hsome, Bool.not_true,
        Option.map_some', if_false, Bool.false_eq_true, Prod.mk.injEq]
      refine ⟨trivial, ?_⟩
      funext nm
      by_cases hnm : nm = z.name
      · subst hnm
        simp only [decide_eq_true_eq, Option.some.injEq, if_true, List.length_cons]
        omega
      · rw [if_neg hnm, if_neg ?_]
        intro h
        exact hnm (by simpa [eq_comm] using of_decide_eq_true h)

/-- C6: `filter_no_fly_zones` keeps, in order, exactly the coordinates
contained in no configured zone; each dropped coordinate is attributed to
the first containing zone in list order (made explicit for the two
configured zones); the returned count for a name is the number of dropped
coordinates attributed to a zone of that name; `contains` is inclusive, so
the zone corner `(min_lat, min_lon)` is inside and one millionth of a
degree below `min_lat` is outside. -/
theorem filter_no_fly_zones_spec (coords : List Coordinate) :
    (filter_no_fly_zones coords).1 =
      coords.filter (fun c =>
        !(NO_FLY_ZONES.any fun z => z.contains c.latitude c.longitude)) ∧
    (∀ nm, (filter_no_fly_zones coords).2 nm =
      (coords.filter fun c =>
        decide (Option.map NoFlyZone.name (locate_no_fly_zone c) = some nm)).length) ∧
    (∀ c, locate_no_fly_zone c =
      if chicagoZone.contains c.latitude c.longitude then some chicagoZone
      else if beijingZone.contains c.latitude c.longitude then some beijingZone
      else none) ∧
    chicagoZone.contains 41.6 (-87.95) = true ∧
    chicagoZone.contains (41.6 - 1/1000000) (-87.95) = false := by
  refine ⟨?_, ?_, ?_, ?_, ?_⟩
  · rw [filter_no_fly_zones, filterZonesLoop_spec]
    simp
  · intro nm
    rw [filter_no_fly_zones, filterZonesLoop_spec]
    simp
  · intro c
    by_cases h1 : chicagoZone.contains c.latitude c.longitude <;>
      by_cases h2 : beijingZone.contains c.latitude c.longitude <;>
        simp [locate_no_fly_zone, NO_FLY_ZONES, List.find?, h1, h2]
  · norm_num [NoFlyZone.contains, chicagoZone]
  · norm_num [NoFlyZone.contains, chicagoZone]

/-- One element of a `timelinePath` list: `{point: "geo:<lat>,<lon>"}`. -/
structure TimelinePoint where
  point : Option String
deriving DecidableEq

/-- The `topCandidate` object of a visit record. -/
structure TopCandidate where
  placeLocation : Option String
deriving DecidableEq

/-- The `visit` object of a visit record. -/
structure VisitRec where
  topCandidate : Option TopCandidate
deriving DecidableEq

/-- One raw payload record (a loosely-typed Python dict): each field is
`none` when the corresponding key is absent.  `latitudeE7`/`longitudeE7`
are the scaled integer coordinates of a flat record. -/
structure Entry where
  latitudeE7 : Option ℚ
  longitudeE7 : Option ℚ
  timestamp : Option String
  timestampMs : Option String
  startTime : Option String
  timelinePath : Option (List TimelinePoint)
  visit : Option VisitRec
deriving DecidableEq

/-- Python truthiness of an optional string: `None` and `""` are falsy.
Used for `if not raw_ts: continue` and `if not location: continue`. -/
def truthyString : Option String → Option String
  | some s => if s = "" then none else some s
  | none => none

/-- `entry.get("timestamp") or entry.get("timestampMs")` followed by the
`if not raw_ts: continue` guard (preprocess.py:23-25). -/
def rawFlatTs (e : Entry) : Option String :=
  match truthyString e.timestamp with
  | some s => some s
  | none => truthyString e.timestampMs

/-- The timelinePath inner loop of `extract_coordinates`
(preprocess.py:39-44): falsy `point` values are skipped, a `geo:` string
`parse_geo_point` cannot parse raises (modelled as `Except.error` carrying
the offending string), parsed points become coordinates stamped with the
record's `startTime`. -/
def extractTimeline (parseGeo : String → Option (ℚ × ℚ)) (ts : ℤ) :
    List TimelinePoint → Except String (List Coordinate)
  | [] => Except.ok []
  | p :: rest =>
      match truthyString p.point with
      | none => extractTimeline parseGeo ts rest
      | some loc =>
          match parseGeo loc with
          | none => Except.error loc
          | some (la, lo) =>
              match extractTimeline parseGeo ts rest with
              | Except.error msg => Except.error msg
              | Except.ok more => Except.ok (⟨la, lo, ts⟩ :: more)

/-- The `elif` branches of `extract_coordinates` for entries that are not
flat records (preprocess.py:34-54): a timelinePath record, else a visit
record with a `topCandidate`, else nothing (unrecognized shapes are
skipped). -/
def extractNonFlat (parseTs : String → ℤ) (parseGeo : String → Option (ℚ × ℚ))
    (e : Entry) : Except String (List Coordinate) :=
  match e.timelinePath with
  | some pts =>
      (match truthyString e.startTime with
       | none => Except.ok []
       | some raw => extractTimeline parseGeo (parseTs raw) pts)
  | none =>
      match e.visit with
      | some v =>
          (match v.topCandidate with
           | some tc =>
              (match truthyString e.startTime with
               | none => Except.ok []
               | some raw =>
                  match truthyString tc.placeLocation with
                  | none => Except.ok []
                  | some loc =>
                      match parseGeo loc with
                      | none => Except.error loc
                      | some (la, lo) => Except.ok [⟨la, lo, parseTs raw⟩])
           | none => Except.ok [])
      | none => Except.ok []

/-- The per-entry dispatch of `extract_coordinates` (preprocess.py:21-54):
a flat record (both `latitudeE7` and `longitudeE7` present) contributes one
coordinate scaled by 1e7, unless its timestamp is missing.
`parse_timestamp` (time_utils.py:9-13) is abstracted as a total function
`parseTs`, and `parse_geo_point` (preprocess.py:14-16) as `parseGeo`
returning `none` where Python `float()`/tuple unpacking would raise. -/
def extractEntry (parseTs : String → ℤ) (parseGeo : String → Option (ℚ × ℚ))
    (e : Entry) : Except String (List Coordinate) :=
  match e.latitudeE7, e.longitudeE7 with
  | some la, some lo =>
      (match rawFlatTs e with
       | none => Except.ok []
       | some raw => Except.ok [⟨la / 10000000, lo / 10000000, parseTs raw⟩])
  | some _, none => extractNonFlat parseTs parseGeo e
  | none, some _ => extractNonFlat parseTs parseGeo e
  | none, none => extractNonFlat parseTs parseGeo e

/-- The record-accumulation loop of `extract_coordinates`
(preprocess.py:20-54), before the final sort. -/
def extractRecords (parseTs : String → ℤ) (parseGeo : String → Option (ℚ × ℚ)) :
    List Entry → Except String (List Coordinate)
  | [] => Except.ok []
  | e :: rest =>
      match extractEntry parseTs parseGeo e with
      | Except.error msg => Except.error msg
      | Except.ok recs =>
          match extractRecords parseTs parseGeo rest with
          | Except.error msg => Except.error msg
          | Except.ok more => Except.ok (recs ++ more)

/-- The sort key of `extract_coordinates`'s final
`sorted(records, key=lambda coord: coord.timestamp)`. -/
def tsLE (a b : Coordinate) : Prop := a.timestamp ≤ b.timestamp

instance : DecidableRel tsLE := fun a b => Int.decLe a.timestamp b.timestamp

instance : IsTotal Coordinate tsLE := ⟨fun a b => Int.le_total a.timestamp b.timestamp⟩

instance : IsTrans Coordinate tsLE := ⟨fun _ _ _ h1 h2 => le_trans h1 h2⟩

/-- `extract_coordinates` from preprocess.py:19-55.  Python's `sorted` is a
stable sort; `List.insertionSort` with the non-strict key comparison is
the stable sort, producing the unique output that is non-decreasing and
keeps equal-key records in input order. -/
def extract_coordinates (parseTs : String → ℤ) (parseGeo : String → Option (ℚ × ℚ))
    (payload : List Entry) : Except String (List Coordinate) :=
  match extractRecords parseTs parseGeo payload with
  | Except.error msg => Except.error msg
  | Except.ok recs => Except.ok (List.insertionSort tsLE recs)

lemma orderedInsert_filter_pos (k : ℤ) (x : Coordinate) (hx : x.timestamp = k)
    (l : List Coordinate) :
    (List.orderedInsert tsLE x l).filter (fun c => decide (c.timestamp = k)) =
      x :: l.filter (fun c => decide (c.timestamp = k)) := by
  induction l with
  | nil => simp [List.orderedInsert, hx]
  | cons y l ih =>
    by_cases h : tsLE x y
    · simp [List.orderedInsert, h, List.filter_cons, hx]
    · have hy : ¬ y.timestamp = k := by
        intro hk
        exact h (by unfold tsLE; omega)
      simp [List.orderedInsert, h, List.filter_cons, hy, ih]

lemma orderedInsert_filter_neg (k : ℤ) (x : Coordinate) (hx : ¬ x.timestamp = k)
    (l : List Coordinate) :
    (List.orderedInsert tsLE x l).filter (fun c => decide (c.timestamp = k)) =
      l.filter (fun c => decide (c.timestamp = k)) := by
  induction l with
  | nil => simp [List.orderedInsert, hx]
  | cons y l ih =>
    by_cases h : tsLE x y
    · simp [List.orderedInsert, h, List.filter_cons, hx]
    · simp [List.orderedInsert, h, List.filter_cons, ih]

lemma insertionSort_filter (k : ℤ) (l : List Coordinate) :
    (List.insertionSort tsLE l).filter (fun c => decide (c.timestamp = k)) =
      l.filter (fun c => decide (c.timestamp = k)) := by
  induction l with
  | nil => rfl
  | cons x l ih =>
    by_cases hx : x.timestamp = k
    · rw [List.insertionSort, orderedInsert_filter_pos k x hx, ih,
        List.filter_cons_of_pos (by simpa using hx)]
    · rw [List.insertionSort, orderedInsert_filter_neg k x hx, ih,
        List.filter_cons_of_neg (by simpa using hx)]

/-- C7: whenever extraction succeeds, the result is `extractRecords`'s
output stably sorted by timestamp — non-decreasing, with records of any
given timestamp in their original relative order — and records missing
their required timestamp field, as well as records matching none of the
three shapes, contribute no coordinates and raise no error. -/
theorem extract_coordinates_spec (parseTs : String → ℤ)
    (parseGeo : String → Option (ℚ × ℚ)) (payload : List Entry)
    (recs : List Coordinate)
    (h : extractRecords parseTs parseGeo payload = Except.ok recs) :
    extract_coordinates parseTs parseGeo payload =
      Except.ok (List.insertionSort tsLE recs) ∧
    List.Sorted tsLE (List.insertionSort tsLE recs) ∧
    (∀ k : ℤ, (List.insertionSort tsLE recs).filter (fun c => decide (c.timestamp = k)) =
      recs.filter (fun c => decide (c.timestamp = k))) ∧
    (∀ (e : Entry) (la lo : ℚ), e.latitudeE7 = some la → e.longitudeE7 = some lo →
      rawFlatTs e = none → extractEntry parseTs parseGeo e = Except.ok []) ∧
    (∀ (e : Entry) (pts : List TimelinePoint),
      (e.latitudeE7 = none ∨ e.longitudeE7 = none) → e.timelinePath = some pts →
      truthyString e.startTime = none → extractEntry parseTs parseGeo e = Except.ok []) ∧
    (∀ (e : Entry) (v : VisitRec) (tc : TopCandidate),
      (e.latitudeE7 = none ∨ e.longitudeE7 = none) → e.timelinePath = none →
      e.visit = some v → v.topCandidate = some tc →
      truthyString e.startTime = none → extractEntry parseTs parseGeo e = Except.ok []) ∧
    (∀ e : Entry, (e.latitudeE7 = none ∨ e.longitudeE7 = none) → e.timelinePath = none →
      (e.visit = none ∨ ∃ v, e.visit = some v ∧ v.topCandidate = none) →
      extractEntry parseTs parseGeo e = Except.ok []) := by
  refine ⟨?_, List.sorted_insertionSort tsLE recs, fun k => insertionSort_filter k recs,
    ?_, ?_, ?_, ?_⟩
  · rw [extract_coordinates, h]
  · intro e la lo hla hlo hts
    rw [extractEntry]
    rw [hla, hlo]
    rw [hts]
  · intro e pts hflat hpath hts
    have : extractNonFlat parseTs parseGeo e = Except.ok [] := by
      rw [extractNonFlat, hpath, hts]
    rcases hl : e.latitudeE7 with _ | la <;> rcases ho : e.longitudeE7 with _ | lo <;>
      first
        | (rw [extractEntry, hl, ho]; exact this)
        | (rcases hflat with hflat | hflat
           · rw [hl] at hflat; exact absurd hflat (by simp)
           · rw [ho] at hflat; exact absurd hflat (by simp))
  · intro e v tc hflat hpath hv htc hts
    have : extractNonFlat parseTs parseGeo e = Except.ok [] := by
      simp only [extractNonFlat, hpath, hv, htc, hts]
    rcases hl : e.latitudeE7 with _ | la <;> rcases ho : e.longitudeE7 with _ | lo <;>
      first
        | (rw [extractEntry, hl, ho]; exact this)
        | (rcases hflat with hflat | hflat
           · rw [hl] at hflat; exact absurd hflat (by simp)
           · rw [ho] at hflat; exact absurd hflat (by simp))
  · intro e hflat hpath hv
    have : extractNonFlat parseTs parseGeo e = Except.ok [] := by
      rcases hv with hv | ⟨v, hv, htc⟩
      · simp only [extractNonFlat, hpath, hv]
      · simp only [extractNonFlat, hpath, hv, htc]
    rcases hl : e.latitudeE7 with _ | la <;> rcases ho : e.longitudeE7 with _ | lo <;>
      first
        | (rw [extractEntry, hl, ho]; exact this)
        | (rcases hflat with hflat | hflat
           · rw [hl] at hflat; exact absurd hflat (by simp)
           · rw [ho] at hflat; exact absurd hflat (by simp))

/-- A concrete flat entry builder for witnesses. -/
def flatEntry (ts : String) (la lo : ℚ) : Entry :=
  { latitudeE7 := some la, longitudeE7 := some lo, timestamp := some ts,
    timestampMs := none, startTime := none, timelinePath := none, visit := none }

/-- An entry matching none of the three record shapes. -/
def junkEntry : Entry :=
  { latitudeE7 := none, longitudeE7 := none, timestamp := none,
    timestampMs := none, startTime := none, timelinePath := none, visit := none }

/-- C7, witness: a payload of two flat records sharing one timestamp plus
an unrecognized record extracts to the two coordinates in input order. -/
theorem extract_coordinates_spec_witness :
    extract_coordinates (fun _ => 5) (fun _ => none)
        [flatEntry "a" 10000000 0, junkEntry, flatEntry "b" 20000000 0] =
      Except.ok [⟨1, 0, 5⟩, ⟨2, 0, 5⟩] := by
  have h : extractRecords (fun _ => 5) (fun _ => none)
      [flatEntry "a" 10000000 0, junkEntry, flatEntry "b" 20000000 0] =
      Except.ok [⟨1, 0, 5⟩, ⟨2, 0, 5⟩] := by
    simp [extractRecords, extractEntry, extractNonFlat, flatEntry, junkEntry, rawFlatTs,
      truthyString]
    norm_num
  have hs := (extract_coordinates_spec (fun _ => 5) (fun _ => none)
    [flatEntry "a" 10000000 0, junkEntry, flatEntry "b" 20000000 0] [⟨1, 0, 5⟩, ⟨2, 0, 5⟩] h).1
  rw [hs]
  simp [List.insertionSort, List.orderedInsert, tsLE]

/-- C8: a timelinePath record whose geo-point string the parser cannot
split into two floats makes the whole extraction fail with a parse error —
`parse_geo_point` is not wrapped in any per-record handling, so the error
propagates out of `extract_coordinates`. -/
theorem extract_coordinates_geo_error (parseTs : String → ℤ)
    (parseGeo : String → Option (ℚ × ℚ)) (g : String)
    (hg : parseGeo g = none) (hne : g ≠ "") :
    extract_coordinates parseTs parseGeo
      [{ latitudeE7 := none, longitudeE7 := none, timestamp := none,
         timestampMs := none, startTime := some "2024-01-01T00:00:00Z",
         timelinePath := some [{ point := some g }], visit := none }] =
      Except.error g := by
  have hts : truthyString (some "2024-01-01T00:00:00Z") = some "2024-01-01T00:00:00Z" := by
    simp [truthyString]
  have hpt : truthyString (some g) = some g := by
    simp [truthyString, hne]
  rw [extract_coordinates, extractRecords, extractEntry]
  simp only
  rw [extractNonFlat]
  simp only [hts, extractTimeline, hpt, hg]

/-- C8, witness: with a geo parser failing on the commaless string
`geo:banana` (as Python `parse_geo_point` would), extraction errors out. -/
theorem extract_coordinates_geo_error_witness :
    extract_coordinates (fun _ => 0) (fun _ => none)
      [{ latitudeE7 := none, longitudeE7 := none, timestamp := none,
         timestampMs := none, startTime := some "2024-01-01T00:00:00Z",
         timelinePath := some [{ point := some "geo:banana" }], visit := none }] =
      Except.error "geo:banana" :=
  extract_coordinates_geo_error (fun _ => 0) (fun _ => none) "geo:banana" rfl (by simp)

/-- The local calendar day of an instant
(`coordinate.timestamp.astimezone(LOCAL_TZ).date()`, coarsen.py:119):
`LOCAL_TZ` is a fixed-offset timezone, so with instants taken on the
local-time axis this is floor division by 86400 seconds. -/
def localDay (t : ℤ) : ℤ := Int.ediv t 86400

/-- `_midday_timestamp` from coarsen.py:58-60: local midnight of the day
plus 12 hours, on the same fixed-offset local axis. -/
def midday (d : ℤ) : ℤ := 86400 * d + 43200

/-- The day key under which `coarsen_coordinates` groups a coordinate. -/
def coordDay (c : Coordinate) : ℤ := localDay c.timestamp

/-- The coordinates of one day group (`daily_groups[day]`, coarsen.py:117-120):
a `defaultdict` append preserves input order, so the group is the in-order
filter of the input by day key. -/
def dayGroup (coords : List Coordinate) (d : ℤ) : List Coordinate :=
  coords.filter fun c => decide (coordDay c = d)

/-- The iteration order `sorted(daily_groups)` (coarsen.py:125): the
distinct day keys in ascending order. -/
def sortedDays (coords : List Coordinate) : List ℤ :=
  List.insertionSort (fun a b => a ≤ b) (coords.map coordDay).dedup

/-- `_mean_lat_lon` from coarsen.py:13-16 (window centroid). -/
def mean_lat_lon (coords : List Coordinate) : ℚ × ℚ :=
  ((coords.map Coordinate.latitude).sum / (coords.length : ℚ),
   (coords.map Coordinate.longitude).sum / (coords.length : ℚ))

/-- `_generate_anchor_points` from coarsen.py:19-27: consecutive windows of
`window_size` points (the last may be smaller), one centroid each.
(Python `range` with step 0 would raise; the `window_size = 0` guard makes
the recursion total and is unreachable from the pipeline's defaults.) -/
def generate_anchor_points (coords : List Coordinate) (window_size : ℕ) : List (ℚ × ℚ) :=
  if _h : coords = [] ∨ window_size = 0 then []
  else
    mean_lat_lon (coords.take window_size) ::
      generate_anchor_points (coords.drop window_size) window_size
termination_by coords.length
decreasing_by
  simp only [not_or] at _h
  simp only [List.length_drop]
  have := List.length_pos.mpr _h.1
  omega

/-- `np.linspace(0.0, 1.0, n)`: `n` evenly spaced rationals from 0 to 1
(`[0.0]` for `n = 1`, `[]` for `n = 0`). -/
def linspace01 (n : ℕ) : List ℚ :=
  if n ≤ 1 then (List.range n).map fun _ => (0 : ℚ)
  else (List.range n).map fun (i : ℕ) => (i : ℚ) / ((n : ℚ) - 1)

/-- `np.polyval(coeffs, x)`: Horner evaluation, coefficients in decreasing
degree order. -/
def polyval (coeffs : List ℚ) (x : ℚ) : ℚ :=
  coeffs.foldl (fun acc c => acc * x + c) 0

/-- `np.interp` on a zipped increasing `(xp, fp)` table: clamp below the
first knot, linear interpolation inside, clamp above the last knot. -/
def interpPairs : List (ℚ × ℚ) → ℚ → ℚ
  | [], _ => 0
  | [(_, fa)], _ => fa
  | (xa, fa) :: (xb, fb) :: rest, x =>
      if x ≤ xa then fa
      else if x ≤ xb then fa + (fb - fa) * (x - xa) / (xb - xa)
      else interpPairs ((xb, fb) :: rest) x

/-- `np.interp(x, xp, fp)`. -/
def interp (x : ℚ) (xp fp : List ℚ) : ℚ := interpPairs (xp.zip fp) x

/-- `_evaluate_curve` from coarsen.py:30-55.  The degree-`min(3, n-1)`
least-squares fit `np.polyfit` is irreducibly floating-point linear
algebra; it is abstracted as a coefficient oracle
`lstsqFit : degree → positions → values → coeffs`, while the surrounding
structure (sample positions, sample count, Horner evaluation, the 2-anchor
linear interpolation, pairing into points) is embedded exactly.  The
`anchors = []` case cannot be reached from `coarsen_coordinates` (day
groups are non-empty). -/
def evaluate_curve (lstsqFit : ℕ → List ℚ → List ℚ → List ℚ)
    (anchors : List (ℚ × ℚ)) (min_samples : ℕ) : List (ℚ × ℚ) :=
  match anchors with
  | [a] => [a]
  | _ =>
      let n := anchors.length
      let anchor_positions := linspace01 n
      let sample_count := max min_samples n
      let sample_positions := linspace01 sample_count
      let lats := anchors.map Prod.fst
      let lons := anchors.map Prod.snd
      if 3 ≤ n then
        let degree := min 3 (n - 1)
        let latC := lstsqFit degree anchor_positions lats
        let lonC := lstsqFit degree anchor_positions lons
        sample_positions.map fun pos => (polyval latC pos, polyval lonC pos)
      else
        sample_positions.map fun pos =>
          (interp pos anchor_positions lats, interp pos anchor_positions lons)

/-- `_coarsen_single_day` from coarsen.py:63-76: sort the day's points by
timestamp, window them into anchors, evaluate the smoothing curve, stamp
every sample with the day's local midday. -/
def coarsen_single_day (lstsqFit : ℕ → List ℚ → List ℚ → List ℚ) (d : ℤ)
    (coords : List Coordinate) (window_size min_samples : ℕ) : List Coordinate :=
  let sorted_coords := List.insertionSort tsLE coords
  let anchors := generate_anchor_points sorted_coords window_size
  let curve_points := evaluate_curve lstsqFit anchors min_samples
  curve_points.map fun q => ⟨q.1, q.2, midday d⟩

/-- `_build_bridge` from coarsen.py:92-105: for `segments ≥ 2`, the
`segments - 1` interior points linearly interpolated at fractions
`i / segments` (`i = 1 .. segments-1`), each stamped with the end
coordinate's timestamp. -/
def build_bridge (start stop : Coordinate) (segments : ℕ) : List Coordinate :=
  if segments < 2 then []
  else
    (List.range (segments - 1)).map fun (i : ℕ) =>
      ⟨start.latitude + (stop.latitude - start.latitude) * (((i : ℚ) + 1) / (segments : ℚ)),
       start.longitude + (stop.longitude - start.longitude) * (((i : ℚ) + 1) / (segments : ℚ)),
       stop.timestamp⟩

/-- The day loop of `coarsen_coordinates` (coarsen.py:125-134): per day in
ascending order, smooth the day's group; skip empty results; insert a
6-segment bridge before the day's points when the previous day's tail is
within `bridge_threshold_km` of the day's head; remember the day's tail. -/
def coarsenLoop (dist : Coordinate → Coordinate → ℚ)
    (lstsqFit : ℕ → List ℚ → List ℚ → List ℚ) (window_size min_samples : ℕ)
    (bridge_threshold_km : ℚ) (groups : ℤ → List Coordinate) :
    List ℤ → Option Coordinate → List Coordinate
  | [], _ => []
  | d :: rest, previous_tail =>
      match coarsen_single_day lstsqFit d (groups d) window_size min_samples with
      | [] =>
          coarsenLoop dist lstsqFit window_size min_samples bridge_threshold_km groups
            rest previous_tail
      | hd :: tl =>
          (match previous_tail with
           | some p =>
               if dist p hd ≤ bridge_threshold_km then build_bridge p hd 6 else []
           | none => []) ++ (hd :: tl) ++
            coarsenLoop dist lstsqFit window_size min_samples bridge_threshold_km groups
              rest (some ((hd :: tl).getLast (List.cons_ne_nil hd tl)))

/-- `coarsen_coordinates` from coarsen.py:108-136. -/
def coarsen_coordinates (dist : Coordinate → Coordinate → ℚ)
    (lstsqFit : ℕ → List ℚ → List ℚ → List ℚ) (coords : List Coordinate)
    (window_size min_samples : ℕ) (bridge_threshold_km : ℚ) : List Coordinate :=
  if coords.length ≤ 1 then coords
  else
    coarsenLoop dist lstsqFit window_size min_samples bridge_threshold_km
      (dayGroup coords) (sortedDays coords) none

/-- The identically-zero least-squares oracle, for concrete witnesses. -/
def lstsq0 : ℕ → List ℚ → List ℚ → List ℚ := fun _ _ _ => []

/-- C10: for 0 or 1 input coordinates, `coarsen_coordinates` returns the
input unchanged — a single coordinate keeps its original latitude,
longitude and timestamp instead of being replaced by a curve point stamped
at local midday. -/
theorem coarsen_coordinates_short_input (dist : Coordinate → Coordinate → ℚ)
    (lstsqFit : ℕ → List ℚ → List ℚ → List ℚ) (coords : List Coordinate)
    (window_size min_samples : ℕ) (bridge_threshold_km : ℚ)
    (h : coords.length ≤ 1) :
    coarsen_coordinates dist lstsqFit coords window_size min_samples
      bridge_threshold_km = coords := by
  unfold coarsen_coordinates
  rw [if_pos h]

/-- C10, witness: the singleton `[usA]` (timestamp 0, which is not the
midday instant 43200 of its day) passes through unchanged under the
default parameters. -/
theorem coarsen_coordinates_short_input_witness :
    coarsen_coordinates dist0 lstsq0 [usA] 5 10 150 = [usA] :=
  coarsen_coordinates_short_input dist0 lstsq0 [usA] 5 10 150 (by norm_num)

lemma insertionSort_ne_nil {l : List Coordinate} (h : l ≠ []) :
    List.insertionSort tsLE l ≠ [] := by
  intro he
  exact h (((he ▸ List.perm_insertionSort tsLE l).symm).eq_nil)

lemma generate_anchor_points_ne_nil {coords : List Coordinate} {w : ℕ}
    (hc : coords ≠ []) (hw : w ≠ 0) : generate_anchor_points coords w ≠ [] := by
  rw [generate_anchor_points]
  simp [hc, hw]

lemma linspace01_ne_nil {n : ℕ} (h : n ≠ 0) : linspace01 n ≠ [] := by
  unfold linspace01
  split
  · intro he
    rw [List.map_eq_nil_iff, List.range_eq_nil] at he
    exact h he
  · intro he
    rw [List.map_eq_nil_iff, List.range_eq_nil] at he
    exact h he

lemma evaluate_curve_ne_nil (lstsqFit : ℕ → List ℚ → List ℚ → List ℚ)
    {anchors : List (ℚ × ℚ)} (h : anchors ≠ []) (min_samples : ℕ) :
    evaluate_curve lstsqFit anchors min_samples ≠ [] := by
  match anchors with
  | [] => exact absurd rfl h
  | [a] => simp [evaluate_curve]
  | a :: b :: rest =>
      simp only [evaluate_curve]
      have hn : max min_samples (a :: b :: rest).length ≠ 0 := by
        simp only [List.length_cons]
        omega
      split
      · intro he
        rw [List.map_eq_nil_iff] at he
        exact linspace01_ne_nil hn he
      · intro he
        rw [List.map_eq_nil_iff] at he
        exact linspace01_ne_nil hn he

lemma coarsen_single_day_ne_nil (lstsqFit : ℕ → List ℚ → List ℚ → List ℚ) (d : ℤ)
    {g : List Coordinate} (hg : g ≠ []) {w : ℕ} (hw : 0 < w) (min_samples : ℕ) :
    coarsen_single_day lstsqFit d g w min_samples ≠ [] := by
  unfold coarsen_single_day
  intro he
  rw [List.map_eq_nil_iff] at he
  exact evaluate_curve_ne_nil lstsqFit
    (generate_anchor_points_ne_nil (insertionSort_ne_nil hg) (by omega)) min_samples he

lemma coarsen_single_day_timestamp (lstsqFit : ℕ → List ℚ → List ℚ → List ℚ) (d : ℤ)
    (g : List Coordinate) (w min_samples : ℕ) :
    ∀ c ∈ coarsen_single_day lstsqFit d g w min_samples, c.timestamp = midday d := by
  intro c hc
  unfold coarsen_single_day at hc
  obtain ⟨q, -, rfl⟩ := List.mem_map.mp hc
  rfl

lemma build_bridge_timestamp (p q : Coordinate) (segments : ℕ) :
    ∀ x ∈ build_bridge p q segments, x.timestamp = q.timestamp := by
  intro x hx
  unfold build_bridge at hx
  split at hx
  · simp at hx
  · obtain ⟨i, -, rfl⟩ := List.mem_map.mp hx
    rfl

lemma localDay_midday (d : ℤ) : localDay (midday d) = d := by
  show (86400 * d + 43200) / 86400 = d
  omega

/-- C3's spec-side description of a bridge, written from the claim's words
for comparison with the code's `_build_bridge`: exactly 5 interior points
(6 segments, endpoints excluded), linearly interpolated in latitude and
longitude at fractions `(i+1)/6` for `i = 0..4`, each carrying the new
day's midday timestamp. -/
def specBridge (p hd : Coordinate) (d : ℤ) : List Coordinate :=
  (List.range 5).map fun (i : ℕ) =>
    ⟨p.latitude + (hd.latitude - p.latitude) * (((i : ℚ) + 1) / 6),
     p.longitude + (hd.longitude - p.longitude) * (((i : ℚ) + 1) / 6),
     midday d⟩

/-- C3: in the day loop of `coarsen_coordinates`, when a day after the
first produces smoothed points `hd :: tl`, the day's head is stamped at
the day's local midday, and the loop emits a bridge before the day's
points if and only if the distance from the previous day's tail to `hd` is
`<= bridge_threshold_km`; the bridge is exactly the claim's 5 interior
linearly-interpolated points carrying the new day's midday timestamp, and
nothing is inserted otherwise.  The final conjunct connects the loop to
`coarsen_coordinates` on inputs of at least two coordinates. -/
theorem coarsen_bridge_spec (dist : Coordinate → Coordinate → ℚ)
    (lstsqFit : ℕ → List ℚ → List ℚ → List ℚ) (window_size min_samples : ℕ)
    (bridge_threshold_km : ℚ) (groups : ℤ → List Coordinate) (d : ℤ)
    (rest : List ℤ) (p hd : Coordinate) (tl : List Coordinate)
    (hday : coarsen_single_day lstsqFit d (groups d) window_size min_samples = hd :: tl) :
    hd.timestamp = midday d ∧
    build_bridge p hd 6 = specBridge p hd d ∧
    coarsenLoop dist lstsqFit window_size min_samples bridge_threshold_km groups
        (d :: rest) (some p) =
      (if dist p hd ≤ bridge_threshold_km then specBridge p hd d else []) ++
        (hd :: tl) ++
        coarsenLoop dist lstsqFit window_size min_samples bridge_threshold_km groups
          rest (some ((hd :: tl).getLast (List.cons_ne_nil hd tl))) ∧
    (∀ coords : List Coordinate, 2 ≤ coords.length →
      coarsen_coordinates dist lstsqFit coords window_size min_samples
          bridge_threshold_km =
        coarsenLoop dist lstsqFit window_size min_samples bridge_threshold_km
          (dayGroup coords) (sortedDays coords) none) := by
  have hts : hd.timestamp = midday d :=
    coarsen_single_day_timestamp lstsqFit d (groups d) window_size min_samples hd
      (hday ▸ List.mem_cons_self hd tl)
  have hbb : build_bridge p hd 6 = specBridge p hd d := by
    unfold build_bridge specBridge
    rw [if_neg (by omega)]
    apply List.map_congr_left
    intro i _
    rw [hts]
    norm_num
  refine ⟨hts, hbb, ?_, ?_⟩
  · simp only [coarsenLoop, hday]
    rw [hbb]
  · intro coords hlen
    unfold coarsen_coordinates
    rw [if_neg (by omega)]

/-- C3, witness: a one-point day group smooths to the single anchor point
stamped at the day's midday, satisfying the theorem's hypothesis; its head
is stamped at `midday 0 = 43200`. -/
theorem coarsen_bridge_spec_witness :
    (⟨40, -100, 43200⟩ : Coordinate).timestamp = midday 0 :=
  (coarsen_bridge_spec dist0 lstsq0 5 10 150 (fun _ => [usA]) 0 [] usA
    ⟨40, -100, 43200⟩ [] (by
      have h1 : List.insertionSort tsLE [usA] = [usA] := by simp
      have h2 : generate_anchor_points [usA] 5 = [(40, -100)] := by
        rw [generate_anchor_points, dif_neg (by simp), generate_anchor_points,
          dif_pos (by simp)]
        norm_num [mean_lat_lon, usA]
      simp only [coarsen_single_day]
      rw [h1, h2, show evaluate_curve lstsq0 [(40, -100)] 10 = [(40, -100)] from rfl]
      simp [midday])).1

lemma mem_sortedDays_iff (coords : List Coordinate) (d : ℤ) :
    d ∈ sortedDays coords ↔ d ∈ coords.map coordDay := by
  unfold sortedDays
  rw [(List.perm_insertionSort _ _).mem_iff, List.mem_dedup]

lemma dayGroup_ne_nil {coords : List Coordinate} {d : ℤ}
    (h : d ∈ sortedDays coords) : dayGroup coords d ≠ [] := by
  rw [mem_sortedDays_iff, List.mem_map] at h
  obtain ⟨c, hc, rfl⟩ := h
  intro he
  have hmem : c ∈ dayGroup coords (coordDay c) := List.mem_filter.mpr ⟨hc, by simp⟩
  rw [he] at hmem
  simp at hmem

lemma coarsenLoop_mem_day (dist : Coordinate → Coordinate → ℚ)
    (lstsqFit : ℕ → List ℚ → List ℚ → List ℚ) (w m : ℕ) (bt : ℚ)
    (groups : ℤ → List Coordinate) :
    ∀ (ds : List ℤ) (prev : Option Coordinate) (c : Coordinate),
      c ∈ coarsenLoop dist lstsqFit w m bt groups ds prev →
      ∃ d ∈ ds, c.timestamp = midday d := by
  intro ds
  induction ds with
  | nil =>
    intro prev c hc
    simp [coarsenLoop] at hc
  | cons d rest ih =>
    intro prev c hc
    rcases hcsd : coarsen_single_day lstsqFit d (groups d) w m with _ | ⟨hd, tl⟩
    · simp only [coarsenLoop, hcsd] at hc
      obtain ⟨d', hd', he⟩ := ih prev c hc
      exact ⟨d', List.mem_cons_of_mem d hd', he⟩
    · simp only [coarsenLoop, hcsd] at hc
      rw [List.mem_append, List.mem_append] at hc
      have hhd : hd.timestamp = midday d :=
        coarsen_single_day_timestamp lstsqFit d (groups d) w m hd
          (hcsd ▸ List.mem_cons_self hd tl)
      rcases hc with (hc | hc) | hc
      · rcases prev with _ | p
        · simp at hc
        · simp only at hc
          split at hc
          · exact ⟨d, List.mem_cons_self d rest,
              (build_bridge_timestamp p hd 6 c hc).trans hhd⟩
          · simp at hc
      · have hcm : c ∈ coarsen_single_day lstsqFit d (groups d) w m := by
          rw [hcsd]; exact hc
        exact ⟨d, List.mem_cons_self d rest,
          coarsen_single_day_timestamp lstsqFit d (groups d) w m c hcm⟩
      · obtain ⟨d', hd', he⟩ := ih _ c hc
        exact ⟨d', List.mem_cons_of_mem d hd', he⟩

lemma coarsenLoop_covers (dist : Coordinate → Coordinate → ℚ)
    (lstsqFit : ℕ → List ℚ → List ℚ → List ℚ) {w : ℕ} (hw : 0 < w) (m : ℕ)
    (bt : ℚ) (groups : ℤ → List Coordinate) :
    ∀ (ds : List ℤ) (prev : Option Coordinate) (d : ℤ), d ∈ ds → groups d ≠ [] →
      ∃ c ∈ coarsenLoop dist lstsqFit w m bt groups ds prev,
        c.timestamp = midday d := by
  intro ds
  induction ds with
  | nil =>
    intro prev d hd
    simp at hd
  | cons d0 rest ih =>
    intro prev d hd hg
    rcases List.mem_cons.mp hd with rfl | hdrest
    · rcases hcsd : coarsen_single_day lstsqFit d (groups d) w m with _ | ⟨hd0, tl⟩
      · exact absurd hcsd (coarsen_single_day_ne_nil lstsqFit d hg hw m)
      · refine ⟨hd0, ?_, coarsen_single_day_timestamp lstsqFit d (groups d) w m hd0
          (hcsd ▸ List.mem_cons_self hd0 tl)⟩
        simp only [coarsenLoop, hcsd]
        simp [List.mem_append]
    · rcases hcsd : coarsen_single_day lstsqFit d0 (groups d0) w m with _ | ⟨hd0, tl⟩
      · simp only [coarsenLoop, hcsd]
        exact ih prev d hdrest hg
      · simp only [coarsenLoop, hcsd]
        obtain ⟨c, hc, he⟩ :=
          ih (some ((hd0 :: tl).getLast (List.cons_ne_nil hd0 tl))) d hdrest hg
        exact ⟨c, by simp [List.mem_append, hc], he⟩

/-- C4: the set of local calendar days of `coarsen_coordinates`'s output
equals the set of local calendar days of the input (bridge points only
carry the new day's midday, so the equality holds with or without them);
moreover every day group of the input smooths to a non-empty point list,
every point of which is stamped at that day's local midday. -/
theorem coarsen_day_set (dist : Coordinate → Coordinate → ℚ)
    (lstsqFit : ℕ → List ℚ → List ℚ → List ℚ) {w : ℕ} (hw : 0 < w) (m : ℕ)
    (bt : ℚ) (coords : List Coordinate) :
    ((coarsen_coordinates dist lstsqFit coords w m bt).map coordDay).toFinset =
      (coords.map coordDay).toFinset ∧
    ∀ d ∈ sortedDays coords,
      coarsen_single_day lstsqFit d (dayGroup coords d) w m ≠ [] ∧
      ∀ c ∈ coarsen_single_day lstsqFit d (dayGroup coords d) w m,
        c.timestamp = midday d := by
  constructor
  · by_cases hlen : coords.length ≤ 1
    · unfold coarsen_coordinates
      rw [if_pos hlen]
    · unfold coarsen_coordinates
      rw [if_neg hlen]
      ext d
      simp only [List.mem_toFinset, List.mem_map]
      constructor
      · rintro ⟨c, hc, rfl⟩
        obtain ⟨d', hd', he⟩ := coarsenLoop_mem_day dist lstsqFit w m bt
          (dayGroup coords) (sortedDays coords) none c hc
        have hcd : coordDay c = d' := by rw [coordDay, he, localDay_midday]
        rw [hcd]
        rw [mem_sortedDays_iff, List.mem_map] at hd'
        exact hd'
      · rintro ⟨c, hc, rfl⟩
        have hd : coordDay c ∈ sortedDays coords :=
          (mem_sortedDays_iff coords (coordDay c)).mpr (List.mem_map_of_mem coordDay hc)
        obtain ⟨c', hc', he⟩ := coarsenLoop_covers dist lstsqFit hw m bt
          (dayGroup coords) (sortedDays coords) none (coordDay c) hd (dayGroup_ne_nil hd)
        exact ⟨c', hc', by rw [coordDay, he, localDay_midday]⟩
  · intro d hd
    exact ⟨coarsen_single_day_ne_nil lstsqFit d (dayGroup_ne_nil hd) hw m,
      coarsen_single_day_timestamp lstsqFit d (dayGroup coords d) w m⟩

/-- C4, witness: for the singleton input `[usA]` under the default
parameters, the output day set equals the input day set. -/
theorem coarsen_day_set_witness :
    ((coarsen_coordinates dist0 lstsq0 [usA] 5 10 150).map coordDay).toFinset =
      ([usA].map coordDay).toFinset :=
  (coarsen_day_set dist0 lstsq0 (by norm_num) 10 150 [usA]).1

end Reizentraj
